import Mathlib

/-!
Verification of the docs-server build pipeline against its specification.

The development shallowly embeds the repository's own code: the terminal
write effect and build-promise logic of src/src/pipeline.ts, the filesystem
watch callback of src/src/file-watcher.ts, the slug and output-path
functions of src/src/markdoc-pipeline.ts and src/src/pipeline.ts, the
schema resolver, and the frontmatter parser.  The generic reactive engine
(the cause-effect package: Task tri-state values, match dispatch, effect
dependency tracking) is not part of the repository's sources; where its
behaviour decides a property it is modelled from the specification and
marked as such in the doc comment.
-/

namespace DocsServer

/-- Modelled from the spec: the tri-state result of an async derived Task,
state in Pending, Ok(value), Err(error) (spec section 4.4). -/
inductive TaskState (α : Type) where
  | pending
  | ok (value : α)
  | err (error : String)
deriving DecidableEq, Repr

/-- Page data produced by processMarkdoc, reduced to the fields the
pipeline's write effect consumes (slug for the output path, title for nav). -/
structure PageData where
  slug : String
  title : String
deriving DecidableEq, Repr

/-- Result record of bundleComponents (src/src/bundler.ts). -/
structure BundleResult where
  jsPath : String
  cssPath : String
  jsHash : String
  cssHash : String
deriving DecidableEq, Repr

/-- Node's join for the non-empty normalized segments used in this code
base: concatenation with a single separator. -/
def pathJoin (a b : String) : String := a ++ "/" ++ b

/-- From src/src/pipeline.ts, pageDataToOutPath: the empty slug maps to
outDir/index.html, any other slug to outDir/slug/index.html. -/
def pageDataToOutPath (page : PageData) (outDir : String) : String :=
  if page.slug = "" then pathJoin outDir "index.html"
  else pathJoin (pathJoin outDir page.slug) "index.html"

/-! ## File watcher (src/src/file-watcher.ts) -/

/-- FileInfo record built by getFileInfo in src/src/file-watcher.ts.  The
source's boolean field named after existence is rendered as stillExists. -/
structure FileInfo where
  path : String
  filename : String
  content : String
  hash : String
  lastModified : Nat
  size : Nat
  stillExists : Bool
deriving DecidableEq, Repr

/-- The List's byKey lookup: the item whose key (the file path) matches. -/
def listByKey (l : List FileInfo) (path : String) : Option FileInfo :=
  l.find? (fun f => f.path = path)

/-- The List's remove-by-key operation. -/
def listRemoveKey (l : List FileInfo) (path : String) : List FileInfo :=
  l.filter (fun f => f.path ≠ path)

/-- The item signal's set operation: replace the value stored under a key. -/
def listSetKey (l : List FileInfo) (path : String) (v : FileInfo) : List FileInfo :=
  l.map (fun f => if f.path = path then v else f)

/-- Externally visible action a single watch event performs on the list. -/
inductive WatchAction where
  | noop
  | removed (path : String)
  | updated (path : String)
  | added (path : String)
deriving DecidableEq, Repr

/-- The fs.watch callback installed by createFileList
(src/src/file-watcher.ts).  The filesystem is passed in as data: whether
the path exists after the event and the FileInfo getFileInfo would return
(content, freshly computed content hash, mtime, size). -/
def watchCallback (directory : String) (isMatching : String → Bool)
    (fileList : List FileInfo) (filename : Option String)
    (pathExistsNow : Bool) (newInfo : FileInfo) : List FileInfo × WatchAction :=
  match filename with
  | none => (fileList, .noop)
  | some fname =>
    if !isMatching fname then (fileList, .noop)
    else
      let filePath := pathJoin directory fname
      if !pathExistsNow then (listRemoveKey fileList filePath, .removed filePath)
      else
        match listByKey fileList filePath with
        | some existing =>
          if existing.hash ≠ newInfo.hash then
            (listSetKey fileList filePath newInfo, .updated filePath)
          else (fileList, .noop)
        | none => (fileList ++ [newInfo], .added filePath)

/-- Primitive filesystem effects createFileList performs. -/
inductive FsEffect where
  | scanDir
  | startWatch (recursive : Bool)
  | closeWatch
deriving DecidableEq, Repr

/-- Effect trace of one createFileList call (src/src/file-watcher.ts): the
initial glob scan when the directory exists, then — straight-line, before
the function returns and independent of any downstream subscriber — the
eager fs.watch start when watch mode is enabled and the directory exists.
The List itself is created without any lazy watched callback. -/
def createFileListEffects (dirExists watchEnabled recursiveInclude : Bool) :
    List FsEffect :=
  (if dirExists then [FsEffect.scanDir] else []) ++
  (if watchEnabled && dirExists then [FsEffect.startWatch recursiveInclude] else [])

/-- Whether createFileList installs the engine's lazy watched callback on
the List: the current code passes no watched option at all. -/
def watchedCallbackInstalled : Bool := false

/-- Effect trace of the closeWatcher method attached to the returned list:
it closes the watcher exactly when one was started. -/
def closeWatcherEffects (dirExists watchEnabled : Bool) : List FsEffect :=
  if watchEnabled && dirExists then [FsEffect.closeWatch] else []

/-! ## The terminal write effect (src/src/pipeline.ts) -/

/-- The four async Tasks the pipeline's write effect dispatches on, in the
order they are passed to match: layoutTask, bundleTask, assetTask,
typedocTask. -/
structure PipelineTasks where
  layout : TaskState String
  bundle : TaskState BundleResult
  asset : TaskState Bool
  typedoc : TaskState (List PageData)
deriving DecidableEq, Repr

/-- Whether a Task has settled Ok. -/
def TaskState.isOk : TaskState α → Bool
  | .ok _ => true
  | _ => false

/-- Whether a Task is still Pending. -/
def TaskState.isPending : TaskState α → Bool
  | .pending => true
  | _ => false

/-- The settled Ok value of a Task, when there is one. -/
def TaskState.okValue : TaskState α → Option α
  | .ok v => some v
  | _ => none

/-- Modelled from the spec: match invokes ok when all given Tasks are Ok
(spec section 4.5).  Conjunction of isOk over the four pipeline Tasks. -/
def PipelineTasks.allOk (t : PipelineTasks) : Bool :=
  t.layout.isOk && t.bundle.isOk && t.asset.isOk && t.typedoc.isOk

/-- Whether any of the four Tasks is still Pending. -/
def PipelineTasks.anyPending (t : PipelineTasks) : Bool :=
  t.layout.isPending || t.bundle.isPending || t.asset.isPending || t.typedoc.isPending

/-- Modelled from the spec: match invokes err with the errors when any
given Task is Err (spec section 4.5); the effect body reads errors[0], the
first Err in task order. -/
def PipelineTasks.firstError (t : PipelineTasks) : Option String :=
  match t.layout with
  | .err e => some e
  | _ =>
    match t.bundle with
    | .err e => some e
    | _ =>
      match t.asset with
      | .err e => some e
      | _ =>
        match t.typedoc with
        | .err e => some e
        | _ => none

/-- Observable steps of one execution of the write effect: dependency
reads (which the engine tracks, spec section 4.1), page writes, error
logging, resolving the one-shot build promise, and the onPagesWritten
notification. -/
inductive RunEvent where
  | readPageItem (slug : String)
  | readTask (name : String)
  | writePage (outPath : String)
  | logError (msg : String)
  | resolveBuild
  | notifyPagesWritten
deriving DecidableEq, Repr

/-- Whether an event is a page write. -/
def RunEvent.isWrite : RunEvent → Bool
  | .writePage _ => true
  | _ => false

/-- Mutable state the effect closes over in createPipeline: whether
initialBuildDone has been set, and whether buildResolve is still non-null
(the build promise not yet resolved). -/
structure PipelineState where
  initialBuildDone : Bool
  buildResolveAlive : Bool
deriving DecidableEq, Repr

/-- The reads that happen on every run before any branching: the eager
loop over pageDataCollection item signals, then the four Task reads match
performs when dispatching. -/
def effectReads (pages : List PageData) : List RunEvent :=
  pages.map (fun p => RunEvent.readPageItem p.slug) ++
  [RunEvent.readTask "layout", RunEvent.readTask "bundle",
   RunEvent.readTask "asset", RunEvent.readTask "typedoc"]

/-- One execution of the terminal write effect (src/src/pipeline.ts,
createEffect body), as an event trace plus the successor closure state.
The effect first reads every pageDataCollection item signal, then match
dispatches on the four Tasks.  In the ok branch it writes every page
(markdown pages plus the typedoc API pages) to its deterministic output
path; once all writes complete (writesComplete, the Promise.all
continuation running) it resolves the build promise if still pending,
fires onPagesWritten only when initialBuildDone was already set and a
callback was supplied, and then sets initialBuildDone.  The err branch
logs errors[0] and resolves the build promise without writing anything.
The nil branch does nothing. -/
def writeEffectRun (outDir : String) (hasNotify : Bool) (st : PipelineState)
    (pages : List PageData) (tasks : PipelineTasks) (writesComplete : Bool) :
    List RunEvent × PipelineState :=
  let base := effectReads pages
  if tasks.allOk then
    let apiPages := tasks.typedoc.okValue.getD []
    let writes := (pages ++ apiPages).map
      (fun p => RunEvent.writePage (pageDataToOutPath p outDir))
    if writesComplete then
      (base ++ writes ++
        (if st.buildResolveAlive then [RunEvent.resolveBuild] else []) ++
        (if st.initialBuildDone && hasNotify then [RunEvent.notifyPagesWritten] else []),
       ⟨true, false⟩)
    else
      (base ++ writes, st)
  else
    match tasks.firstError with
    | some e =>
      (base ++ [RunEvent.logError e] ++
        (if st.buildResolveAlive then [RunEvent.resolveBuild] else []),
       ⟨st.initialBuildDone, false⟩)
    | none => (base, st)

/-- Input of one effect run: the collection contents, the four Task
states, and whether that run's page writes all completed. -/
structure RunInput where
  pages : List PageData
  tasks : PipelineTasks
  writesComplete : Bool
deriving DecidableEq, Repr

instance : Inhabited RunInput :=
  ⟨⟨[], ⟨.pending, .pending, .pending, .pending⟩, false⟩⟩

/-- A run on which all four Tasks were Ok and every page write finished. -/
def RunInput.completedOk (r : RunInput) : Prop :=
  r.tasks.allOk = true ∧ r.writesComplete = true

instance (r : RunInput) : Decidable r.completedOk := by
  unfold RunInput.completedOk; infer_instance

/-- The traces of a sequence of effect runs, threading the closure state
from run to run. -/
def runSeq (outDir : String) (hasNotify : Bool) (st : PipelineState) :
    List RunInput → List (List RunEvent)
  | [] => []
  | r :: rs =>
    let step := writeEffectRun outDir hasNotify st r.pages r.tasks r.writesComplete
    step.1 :: runSeq outDir hasNotify step.2 rs

/-! ## Slug computation (src/src/markdoc-pipeline.ts) -/

/-- JavaScript String.replace with a string pattern and empty replacement:
remove the first occurrence of the pattern; with an empty pattern the
string is unchanged. -/
def replaceFirstChars : List Char → List Char → List Char
  | [], _ => []
  | c :: rest, pat =>
    if pat ≠ [] ∧ pat.isPrefixOf (c :: rest) then (c :: rest).drop pat.length
    else c :: replaceFirstChars rest pat

/-- The regex replace of one leading slash with nothing. -/
def stripLeadingSlashChars : List Char → List Char
  | '/' :: rest => rest
  | l => l

/-- The regex replace of a trailing suffix with nothing (applied in the
source to the .md extension). -/
def stripSuffixChars (l suffix : List Char) : List Char :=
  if suffix.isSuffixOf l then l.take (l.length - suffix.length) else l

/-- From src/src/markdoc-pipeline.ts, filePathToSlug: remove the first
occurrence of srcDir, one leading slash, and the .md extension; then map
index to the empty slug and dir/index to dir. -/
def filePathToSlug (filePath srcDir : String) : String :=
  let s1 := replaceFirstChars filePath.data srcDir.data
  let s2 := stripLeadingSlashChars s1
  let s3 := stripSuffixChars s2 ".md".data
  let slug :=
    if s3 = "index".data then []
    else if "/index".data.isSuffixOf s3 then s3.take (s3.length - "/index".data.length)
    else s3
  slug.asString

/-! ## JavaScript object model (spread, assignment, lookup)

Used by the schema resolver's object merge and the frontmatter spread. -/

/-- JavaScript property assignment on an object held as an ordered list of
own enumerable entries: overwrite in place when the key is present,
append otherwise. -/
def objSetKey (obj : List (String × α)) (k : String) (v : α) : List (String × α) :=
  if obj.any (fun p => p.1 = k) then
    obj.map (fun p => if p.1 = k then (k, v) else p)
  else obj ++ [(k, v)]

/-- JavaScript object spread of over into base: assign over's entries onto
base in order. -/
def objSpread (base over : List (String × α)) : List (String × α) :=
  over.foldl (fun acc p => objSetKey acc p.1 p.2) base

/-- Property lookup on an object. -/
def objLookup (obj : List (String × α)) (k : String) : Option α :=
  (obj.find? (fun p => p.1 = k)).map Prod.snd

/-- The key list of an object. -/
def objKeys (obj : List (String × α)) : List String := obj.map Prod.fst

/-! ## Schema resolver (src/unnamed/part_000, resolveSchemas) -/

/-- The fixed set of known Markdoc node names, in source order. -/
def NODE_NAMES : List String :=
  ["document", "heading", "paragraph", "fence", "blockquote",
   "list", "item", "table", "thead", "tbody", "tr", "th", "td",
   "hr", "image", "link", "em", "strong", "code", "text", "s",
   "hardbreak", "softbreak", "inline"]

/-- One step of the partition loop in resolveSchemas: a schema whose name
is a known node name is assigned into the nodes record, any other into
the tags record. -/
def partitionStep (nt : List (String × α) × List (String × α)) (p : String × α) :
    List (String × α) × List (String × α) :=
  if NODE_NAMES.contains p.1 then (objSetKey nt.1 p.1 p.2, nt.2)
  else (nt.1, objSetKey nt.2 p.1 p.2)

/-- From src/unnamed/part_000, resolveSchemas: merge the built-in and user
schema records with the user spread last (user overrides built-in), then
partition the merged entries into nodes and tags by membership of the
name in NODE_NAMES.  The two directory loads are passed in as the records
they produce. -/
def resolveSchemas (builtinSchemas userSchemas : List (String × α)) :
    List (String × α) × List (String × α) :=
  let merged := objSpread builtinSchemas userSchemas
  merged.foldl partitionStep ([], [])

/-! ## Frontmatter parsing (src/src/markdoc-pipeline.ts) -/

/-- A YAML value as the frontmatter record stores it: a string, or any
other shape. -/
inductive YVal where
  | str (s : String)
  | other
deriving DecidableEq, Repr

/-- Modelled from the spec scope: the external yaml library's parse,
treated as an oracle.  fail is a parse that throws (malformed YAML); ok
carries the own enumerable entries that object spread of the parsed value
yields (an object's entries; index entries for strings and arrays; none
for other scalars). -/
inductive YamlParse where
  | fail
  | ok (ownEntries : List (String × YVal))
deriving DecidableEq, Repr

/-- From src/src/markdoc-pipeline.ts, parseFrontmatter: absent raw
frontmatter yields a record with an empty title; otherwise parse the YAML
inside try/catch, returning the empty-title record on a throw and
spreading the parsed entries over the empty-title default on success. -/
def parseFrontmatter (raw : Option String) (parseYaml : String → YamlParse) :
    List (String × YVal) :=
  match raw with
  | none => [("title", YVal.str "")]
  | some s =>
    match parseYaml s with
    | .fail => [("title", YVal.str "")]
    | .ok own => objSpread [("title", YVal.str "")] own

/-! ## Task generations (modelled from the spec) -/

/-- A settled outcome an async Task body delivers. -/
inductive Settled (α : Type) where
  | ok (value : α)
  | err (error : String)
deriving DecidableEq, Repr

/-- The Task state a delivered outcome produces. -/
def Settled.toState : Settled α → TaskState α
  | .ok v => .ok v
  | .err e => .err e

/-- Modelled from the spec: a Task node carries a monotonic generation
counter and a visible tri-state value (spec sections 3 and 4.4). -/
structure TaskNode (α : Type) where
  generation : Nat
  visible : TaskState α
deriving DecidableEq, Repr

/-- Events in a Task's life: an invalidation starting a new generation
(resetting the visible state to Pending), or an async body completing and
attempting to deliver a result tagged with the generation that produced
it. -/
inductive TaskEvent (α : Type) where
  | start
  | complete (gen : Nat) (result : Settled α)
deriving DecidableEq, Repr

/-- Modelled from the spec: starting a new generation bumps the counter
and resets the visible state to Pending; a completion delivers its result
only when its generation is still the current one — a stale generation's
completion never mutates the visible state (spec section 4.4). -/
def TaskNode.applyEvent (t : TaskNode α) : TaskEvent α → TaskNode α
  | .start => ⟨t.generation + 1, .pending⟩
  | .complete gen r => if gen = t.generation then ⟨t.generation, r.toState⟩ else t

/-- Run a Task node through a sequence of events. -/
def TaskNode.run (t : TaskNode α) (evs : List (TaskEvent α)) : TaskNode α :=
  evs.foldl TaskNode.applyEvent t

/-- A freshly created Task: generation zero, Pending. -/
def TaskNode.initial : TaskNode α := ⟨0, .pending⟩

/-! ## Lemmas on the JavaScript object model -/

theorem objSpread_cons (base : List (String × α)) (p : String × α)
    (rest : List (String × α)) :
    objSpread base (p :: rest) = objSpread (objSetKey base p.1 p.2) rest := rfl

theorem objLookup_cons (p : String × α) (rest : List (String × α)) (k : String) :
    objLookup (p :: rest) k = if p.1 = k then some p.2 else objLookup rest k := by
  by_cases h : p.1 = k
  · rw [if_pos h]
    unfold objLookup
    rw [List.find?_cons_of_pos _ (by simp [h])]
    rfl
  · rw [if_neg h]
    unfold objLookup
    rw [List.find?_cons_of_neg _ (by simp [h])]

theorem any_key_iff_mem_objKeys (obj : List (String × α)) (k : String) :
    obj.any (fun p => p.1 = k) = true ↔ k ∈ objKeys obj := by
  rw [List.any_eq_true]
  unfold objKeys
  rw [List.mem_map]
  simp only [decide_eq_true_eq]

theorem objSetKey_cons_of_eq (p : String × α) (rest : List (String × α))
    (k : String) (v : α) (hp : p.1 = k) :
    objSetKey (p :: rest) k v =
      (k, v) :: rest.map (fun q => if q.1 = k then (k, v) else q) := by
  unfold objSetKey
  rw [if_pos (by simp [List.any_cons, hp])]
  simp [hp]

theorem objSetKey_cons_of_ne (p : String × α) (rest : List (String × α))
    (k : String) (v : α) (hp : ¬p.1 = k) :
    objSetKey (p :: rest) k v = p :: objSetKey rest k v := by
  unfold objSetKey
  by_cases h : rest.any (fun q => q.1 = k) = true
  · rw [if_pos (by simp [List.any_cons, h]), if_pos h]
    simp [hp]
  · rw [if_neg (by simp [List.any_cons, hp, h]), if_neg h]
    simp

theorem objKeys_map_setfn (rest : List (String × α)) (k : String) (v : α) :
    objKeys (rest.map (fun q => if q.1 = k then (k, v) else q)) = objKeys rest := by
  unfold objKeys
  rw [List.map_map]
  apply List.map_congr_left
  intro q _
  by_cases hq : q.1 = k
  · simp [hq]
  · simp [hq]

theorem objLookup_map_setfn (rest : List (String × α)) (k n : String) (v : α)
    (h : ¬n = k) :
    objLookup (rest.map (fun q => if q.1 = k then (k, v) else q)) n =
      objLookup rest n := by
  induction rest with
  | nil => rfl
  | cons q rs ih =>
    rw [List.map_cons]
    by_cases hq : q.1 = k
    · rw [if_pos hq, objLookup_cons, objLookup_cons,
        if_neg (fun hkn : k = n => h hkn.symm), if_neg (fun hqn : q.1 = n => h (hq ▸ hqn).symm)]
      exact ih
    · rw [if_neg hq, objLookup_cons, objLookup_cons]
      by_cases hqn : q.1 = n
      · rw [if_pos hqn, if_pos hqn]
      · rw [if_neg hqn, if_neg hqn]
        exact ih

theorem objLookup_objSetKey_self (obj : List (String × α)) (k : String) (v : α) :
    objLookup (objSetKey obj k v) k = some v := by
  induction obj with
  | nil =>
    unfold objSetKey
    rw [if_neg (by simp)]
    rw [List.nil_append, objLookup_cons, if_pos rfl]
  | cons p rest ih =>
    by_cases hp : p.1 = k
    · rw [objSetKey_cons_of_eq p rest k v hp, objLookup_cons, if_pos rfl]
    · rw [objSetKey_cons_of_ne p rest k v hp, objLookup_cons, if_neg hp]
      exact ih

theorem objLookup_objSetKey_ne (obj : List (String × α)) (k n : String) (v : α)
    (h : ¬n = k) : objLookup (objSetKey obj k v) n = objLookup obj n := by
  induction obj with
  | nil =>
    unfold objSetKey
    rw [if_neg (by simp)]
    rw [List.nil_append, objLookup_cons, if_neg (fun hkn : k = n => h hkn.symm)]
  | cons p rest ih =>
    by_cases hp : p.1 = k
    · rw [objSetKey_cons_of_eq p rest k v hp, objLookup_cons,
        if_neg (fun hkn : k = n => h hkn.symm), objLookup_cons,
        if_neg (fun hpn : p.1 = n => h (hp ▸ hpn).symm)]
      exact objLookup_map_setfn rest k n v h
    · rw [objSetKey_cons_of_ne p rest k v hp, objLookup_cons, objLookup_cons]
      by_cases hpn : p.1 = n
      · rw [if_pos hpn, if_pos hpn]
      · rw [if_neg hpn, if_neg hpn]
        exact ih

theorem mem_objKeys_objSetKey (obj : List (String × α)) (k n : String) (v : α) :
    n ∈ objKeys (objSetKey obj k v) ↔ n ∈ objKeys obj ∨ n = k := by
  induction obj with
  | nil =>
    unfold objSetKey
    rw [if_neg (by simp)]
    simp [objKeys]
  | cons p rest ih =>
    by_cases hp : p.1 = k
    · rw [objSetKey_cons_of_eq p rest k v hp]
      show n ∈ objKeys ((k, v) :: _) ↔ _
      unfold objKeys
      rw [List.map_cons, List.mem_cons]
      have := objKeys_map_setfn rest k v
      unfold objKeys at this
      rw [this, List.map_cons, List.mem_cons, hp]
      tauto
    · rw [objSetKey_cons_of_ne p rest k v hp]
      unfold objKeys
      rw [List.map_cons, List.mem_cons]
      unfold objKeys at ih
      rw [ih, List.map_cons, List.mem_cons]
      tauto

theorem objLookup_objSpread_of_not_mem (over : List (String × α)) :
    ∀ (base : List (String × α)) (k : String), k ∉ objKeys over →
      objLookup (objSpread base over) k = objLookup base k := by
  induction over with
  | nil => intro base k _; rfl
  | cons p rest ih =>
    intro base k h
    simp only [objKeys, List.map_cons, List.mem_cons, not_or] at h
    rw [objSpread_cons, ih (objSetKey base p.1 p.2) k (by simpa [objKeys] using h.2)]
    exact objLookup_objSetKey_ne base p.1 k p.2 h.1

theorem objLookup_objSpread_of_lookup (over : List (String × α)) :
    ∀ (base : List (String × α)) (k : String) (v : α),
      (objKeys over).Nodup → objLookup over k = some v →
      objLookup (objSpread base over) k = some v := by
  induction over with
  | nil => intro base k v _ h; simp [objLookup] at h
  | cons p rest ih =>
    intro base k v hNodup h
    simp only [objKeys, List.map_cons, List.nodup_cons] at hNodup
    rw [objLookup_cons] at h
    rw [objSpread_cons]
    by_cases hp : p.1 = k
    · rw [if_pos hp] at h
      have hv : p.2 = v := by simpa using h
      have hknot : k ∉ objKeys rest := by
        rw [← hp]
        simpa [objKeys] using hNodup.1
      rw [objLookup_objSpread_of_not_mem rest _ k hknot]
      rw [show objSetKey base p.1 p.2 = objSetKey base k v by rw [hp, hv]]
      exact objLookup_objSetKey_self base k v
    · rw [if_neg hp] at h
      exact ih (objSetKey base p.1 p.2) k v hNodup.2 h

theorem isSome_objLookup_objSpread (over : List (String × α)) :
    ∀ (base : List (String × α)) (k : String),
      (objLookup base k).isSome = true →
      (objLookup (objSpread base over) k).isSome = true := by
  induction over with
  | nil => intro base k h; exact h
  | cons p rest ih =>
    intro base k h
    rw [objSpread_cons]
    apply ih
    by_cases hp : p.1 = k
    · rw [hp, objLookup_objSetKey_self]
      rfl
    · rw [objLookup_objSetKey_ne base p.1 k p.2 (fun hk => hp hk.symm)]
      exact h

theorem mem_objKeys_objSpread (over : List (String × α)) :
    ∀ (base : List (String × α)) (n : String),
      n ∈ objKeys (objSpread base over) ↔ n ∈ objKeys base ∨ n ∈ objKeys over := by
  induction over with
  | nil => intro base n; simp [objSpread, objKeys]
  | cons p rest ih =>
    intro base n
    rw [objSpread_cons, ih (objSetKey base p.1 p.2) n, mem_objKeys_objSetKey]
    show _ ↔ _ ∨ n ∈ objKeys (p :: rest)
    unfold objKeys
    rw [List.map_cons, List.mem_cons]
    constructor
    · rintro ((h | rfl) | h)
      · exact Or.inl h
      · exact Or.inr (Or.inl rfl)
      · exact Or.inr (Or.inr h)
    · rintro (h | (rfl | h))
      · exact Or.inl (Or.inl h)
      · exact Or.inl (Or.inr rfl)
      · exact Or.inr h

theorem mem_objKeys_partition_foldl (l : List (String × α)) :
    ∀ (acc : List (String × α) × List (String × α)) (n : String),
      (n ∈ objKeys (l.foldl partitionStep acc).1 ↔
        n ∈ objKeys acc.1 ∨ (n ∈ objKeys l ∧ NODE_NAMES.contains n = true)) ∧
      (n ∈ objKeys (l.foldl partitionStep acc).2 ↔
        n ∈ objKeys acc.2 ∨ (n ∈ objKeys l ∧ NODE_NAMES.contains n = false)) := by
  induction l with
  | nil => intro acc n; simp [objKeys]
  | cons p rest ih =>
    intro acc n
    rw [List.foldl_cons]
    obtain ⟨ih1, ih2⟩ := ih (partitionStep acc p) n
    rw [ih1, ih2]
    have hkeys : ∀ m : String, m ∈ objKeys (p :: rest) ↔ m = p.1 ∨ m ∈ objKeys rest := by
      intro m
      unfold objKeys
      rw [List.map_cons, List.mem_cons]
    unfold partitionStep
    by_cases hc : NODE_NAMES.contains p.1 = true
    · rw [if_pos hc]
      constructor
      · rw [mem_objKeys_objSetKey, hkeys n]
        constructor
        · rintro ((h | rfl) | ⟨h1, h2⟩)
          · exact Or.inl h
          · exact Or.inr ⟨Or.inl rfl, hc⟩
          · exact Or.inr ⟨Or.inr h1, h2⟩
        · rintro (h | ⟨(rfl | h1), h2⟩)
          · exact Or.inl (Or.inl h)
          · exact Or.inl (Or.inr rfl)
          · exact Or.inr ⟨h1, h2⟩
      · rw [hkeys n]
        constructor
        · rintro (h | ⟨h1, h2⟩)
          · exact Or.inl h
          · exact Or.inr ⟨Or.inr h1, h2⟩
        · rintro (h | ⟨(rfl | h1), h2⟩)
          · exact Or.inl h
          · rw [hc] at h2; exact absurd h2 (by simp)
          · exact Or.inr ⟨h1, h2⟩
    · rw [if_neg hc]
      rw [Bool.not_eq_true] at hc
      constructor
      · rw [hkeys n]
        constructor
        · rintro (h | ⟨h1, h2⟩)
          · exact Or.inl h
          · exact Or.inr ⟨Or.inr h1, h2⟩
        · rintro (h | ⟨(rfl | h1), h2⟩)
          · exact Or.inl h
          · rw [hc] at h2; exact absurd h2 (by simp)
          · exact Or.inr ⟨h1, h2⟩
      · rw [mem_objKeys_objSetKey, hkeys n]
        constructor
        · rintro ((h | rfl) | ⟨h1, h2⟩)
          · exact Or.inl h
          · exact Or.inr ⟨Or.inl rfl, hc⟩
          · exact Or.inr ⟨Or.inr h1, h2⟩
        · rintro (h | ⟨(rfl | h1), h2⟩)
          · exact Or.inl (Or.inl h)
          · exact Or.inl (Or.inr rfl)
          · exact Or.inr ⟨h1, h2⟩

/-! ## Claim C9 -/

/-- C9: resolveSchemas(builtinDir, userDir) is a right-biased merge
followed by a partition: a schema name present in the user record wins in
the merged record (user overrides built-in); every merged name lands in
nodes exactly when it is in the fixed NODE_NAMES set and in tags
otherwise, so the key sets of nodes and tags are disjoint and together
cover all merged names. -/
theorem resolveSchemas_merge_partition {α : Type}
    (builtinSchemas userSchemas : List (String × α)) (n : String) (v : α)
    (hu : (objKeys userSchemas).Nodup) :
    (objLookup userSchemas n = some v →
      objLookup (objSpread builtinSchemas userSchemas) n = some v) ∧
    (n ∈ objKeys (resolveSchemas builtinSchemas userSchemas).1 ↔
      n ∈ objKeys (objSpread builtinSchemas userSchemas) ∧
        NODE_NAMES.contains n = true) ∧
    (n ∈ objKeys (resolveSchemas builtinSchemas userSchemas).2 ↔
      n ∈ objKeys (objSpread builtinSchemas userSchemas) ∧
        NODE_NAMES.contains n = false) ∧
    ¬(n ∈ objKeys (resolveSchemas builtinSchemas userSchemas).1 ∧
      n ∈ objKeys (resolveSchemas builtinSchemas userSchemas).2) ∧
    (n ∈ objKeys (objSpread builtinSchemas userSchemas) ↔
      n ∈ objKeys (resolveSchemas builtinSchemas userSchemas).1 ∨
      n ∈ objKeys (resolveSchemas builtinSchemas userSchemas).2) := by
  have hpart := mem_objKeys_partition_foldl
    (objSpread builtinSchemas userSchemas) ([], []) n
  have hres1 : (resolveSchemas builtinSchemas userSchemas).1 =
      ((objSpread builtinSchemas userSchemas).foldl partitionStep ([], [])).1 := rfl
  have hres2 : (resolveSchemas builtinSchemas userSchemas).2 =
      ((objSpread builtinSchemas userSchemas).foldl partitionStep ([], [])).2 := rfl
  have hp1 : n ∈ objKeys (resolveSchemas builtinSchemas userSchemas).1 ↔
      n ∈ objKeys (objSpread builtinSchemas userSchemas) ∧
        NODE_NAMES.contains n = true := by
    rw [hres1, hpart.1]
    simp [objKeys]
  have hp2 : n ∈ objKeys (resolveSchemas builtinSchemas userSchemas).2 ↔
      n ∈ objKeys (objSpread builtinSchemas userSchemas) ∧
        NODE_NAMES.contains n = false := by
    rw [hres2, hpart.2]
    simp [objKeys]
  refine ⟨?_, hp1, hp2, ?_, ?_⟩
  · intro h
    exact objLookup_objSpread_of_lookup userSchemas builtinSchemas n v hu h
  · rintro ⟨ha, hb⟩
    rw [hp1] at ha
    rw [hp2] at hb
    rw [ha.2] at hb
    exact absurd hb.2 (by simp)
  · constructor
    · intro h
      by_cases hc : NODE_NAMES.contains n = true
      · exact Or.inl (hp1.mpr ⟨h, hc⟩)
      · exact Or.inr (hp2.mpr ⟨h, by simpa using hc⟩)
    · rintro (h | h)
      · exact (hp1.mp h).1
      · exact (hp2.mp h).1

/-- Witness for C9 at a concrete input: the user's heading schema (value
2) overrides the built-in one (value 0) in the merge, and heading — a
known node name — lands in the nodes record. -/
theorem resolveSchemas_merge_partition_witness :
    objLookup (objSpread [("heading", 0), ("callout", 1)] [("heading", 2)])
      "heading" = some 2 ∧
    "heading" ∈ objKeys
      (resolveSchemas [("heading", 0), ("callout", 1)] [("heading", 2)]).1 := by
  have h := resolveSchemas_merge_partition
    [("heading", 0), ("callout", 1)] [("heading", 2)] "heading" 2 (by decide)
  exact ⟨h.1 (by decide), (h.2.1).mpr (by decide)⟩

/-! ## Claim C10 -/

/-- C10: parseFrontmatter is total: for every input — absent raw
frontmatter or malformed YAML — it returns a record containing a title
key, and title is the empty string whenever the raw frontmatter is
absent, fails to parse, or does not supply a title. -/
theorem parseFrontmatter_total (raw : Option String)
    (parseYaml : String → YamlParse) :
    (objLookup (parseFrontmatter raw parseYaml) "title").isSome = true ∧
    (raw = none →
      objLookup (parseFrontmatter raw parseYaml) "title" = some (YVal.str "")) ∧
    (∀ s, raw = some s → parseYaml s = YamlParse.fail →
      objLookup (parseFrontmatter raw parseYaml) "title" = some (YVal.str "")) ∧
    (∀ s own, raw = some s → parseYaml s = YamlParse.ok own →
      "title" ∉ objKeys own →
      objLookup (parseFrontmatter raw parseYaml) "title" = some (YVal.str "")) := by
  have hbase : objLookup [("title", YVal.str "")] "title" = some (YVal.str "") := by
    rw [objLookup_cons, if_pos rfl]
  refine ⟨?_, ?_, ?_, ?_⟩
  · cases raw with
    | none =>
      rw [show parseFrontmatter none parseYaml = [("title", YVal.str "")] from rfl,
        hbase]
      rfl
    | some s =>
      cases hps : parseYaml s with
      | fail =>
        have : parseFrontmatter (some s) parseYaml = [("title", YVal.str "")] := by
          simp [parseFrontmatter, hps]
        rw [this, hbase]
        rfl
      | ok own =>
        have heq : parseFrontmatter (some s) parseYaml =
            objSpread [("title", YVal.str "")] own := by
          simp [parseFrontmatter, hps]
        rw [heq]
        exact isSome_objLookup_objSpread own [("title", YVal.str "")] "title"
          (by rw [hbase]; rfl)
  · intro h
    subst h
    rw [show parseFrontmatter none parseYaml = [("title", YVal.str "")] from rfl]
    exact hbase
  · intro s hs hf
    subst hs
    have : parseFrontmatter (some s) parseYaml = [("title", YVal.str "")] := by
      simp [parseFrontmatter, hf]
    rw [this]
    exact hbase
  · intro s own hs hok hmem
    subst hs
    have heq : parseFrontmatter (some s) parseYaml =
        objSpread [("title", YVal.str "")] own := by
      simp [parseFrontmatter, hok]
    rw [heq, objLookup_objSpread_of_not_mem own _ "title" hmem]
    exact hbase

/-- Witness for C10 at a concrete input: a present but malformed YAML
frontmatter yields the empty title. -/
theorem parseFrontmatter_total_witness :
    objLookup (parseFrontmatter (some "x") (fun _ => YamlParse.fail)) "title" =
      some (YVal.str "") :=
  (parseFrontmatter_total (some "x") (fun _ => YamlParse.fail)).2.2.1 "x" rfl rfl

/-! ## Claim C2 -/

/-- C2: for a watch event on a file that exists and is already in the
list, the item is updated only when the newly computed content hash
differs from the stored FileInfo's hash; when the hashes are equal — the
new FileInfo may carry any modification time and size, so metadata-only
changes are covered — no update call is made and the list is unchanged. -/
theorem watchCallback_hash_guard (directory : String)
    (isMatching : String → Bool) (fileList : List FileInfo) (fname : String)
    (newInfo existing : FileInfo)
    (hmatch : isMatching fname = true)
    (hpresent : listByKey fileList (pathJoin directory fname) = some existing) :
    (existing.hash = newInfo.hash →
      watchCallback directory isMatching fileList (some fname) true newInfo =
        (fileList, WatchAction.noop)) ∧
    (existing.hash ≠ newInfo.hash →
      watchCallback directory isMatching fileList (some fname) true newInfo =
        (listSetKey fileList (pathJoin directory fname) newInfo,
         WatchAction.updated (pathJoin directory fname))) := by
  constructor
  · intro heq
    simp [watchCallback, hmatch, hpresent, heq]
  · intro hne
    simp [watchCallback, hmatch, hpresent, hne]

/-- Witness for C2 at a concrete input: the stored and recomputed
FileInfo share the hash h1 but differ in modification time and size, and
the event leaves the list untouched. -/
theorem watchCallback_hash_guard_witness :
    watchCallback "src" (fun _ => true)
      [⟨"src/a.md", "a.md", "hello", "h1", 1, 5, true⟩] (some "a.md") true
      ⟨"src/a.md", "a.md", "hello", "h1", 99, 7, true⟩ =
      ([⟨"src/a.md", "a.md", "hello", "h1", 1, 5, true⟩], WatchAction.noop) :=
  (watchCallback_hash_guard "src" (fun _ => true)
    [⟨"src/a.md", "a.md", "hello", "h1", 1, 5, true⟩] "a.md"
    ⟨"src/a.md", "a.md", "hello", "h1", 99, 7, true⟩
    ⟨"src/a.md", "a.md", "hello", "h1", 1, 5, true⟩
    rfl (by decide)).1 rfl

/-! ## Claim C4 -/

/-- C4: with watch enabled and the directory existing, createFileList
starts the filesystem watcher eagerly and exactly once in its creation
trace — the List is created without the engine's lazy subscriber-driven
watched callback, so activation does not wait for a 0-to-1 subscriber
transition — and closeWatcher releases it on disposal; it never remains
silently unactivated. -/
theorem createFileList_eager_watcher (dirExists watchEnabled recursiveInclude : Bool)
    (hdir : dirExists = true) (hwatch : watchEnabled = true) :
    ((createFileListEffects dirExists watchEnabled recursiveInclude).count
        (FsEffect.startWatch recursiveInclude) = 1) ∧
    FsEffect.startWatch recursiveInclude ∈
      createFileListEffects dirExists watchEnabled recursiveInclude ∧
    watchedCallbackInstalled = false ∧
    closeWatcherEffects dirExists watchEnabled = [FsEffect.closeWatch] := by
  subst hdir hwatch
  refine ⟨?_, ?_, rfl, rfl⟩
  · cases recursiveInclude <;> decide
  · cases recursiveInclude <;> decide

/-- Witness for C4 at a concrete input: a recursive include pattern. -/
theorem createFileList_eager_watcher_witness :
    ((createFileListEffects true true true).count (FsEffect.startWatch true) = 1) ∧
    FsEffect.startWatch true ∈ createFileListEffects true true true :=
  ⟨(createFileList_eager_watcher true true true rfl rfl).1,
   (createFileList_eager_watcher true true true rfl rfl).2.1⟩

/-! ## Claim C8 -/

theorem replaceFirstChars_append_self (pat rest : List Char) (h : pat ≠ []) :
    replaceFirstChars (pat ++ rest) pat = rest := by
  cases pat with
  | nil => exact absurd rfl h
  | cons c cs =>
    have hcond : c :: cs ≠ [] ∧ (c :: cs).isPrefixOf (c :: (cs ++ rest)) = true := by
      refine ⟨by simp, ?_⟩
      rw [List.isPrefixOf_iff_prefix]
      exact List.prefix_append (c :: cs) rest
    show replaceFirstChars (c :: (cs ++ rest)) (c :: cs) = rest
    unfold replaceFirstChars
    rw [if_pos hcond]
    show ((c :: cs) ++ rest).drop (c :: cs).length = rest
    rw [List.drop_left]

theorem data_asString (s : String) : s.data.asString = s := rfl

theorem data_ne_nil_of_ne_empty (s : String) (h : s ≠ "") : s.data ≠ [] :=
  fun hd => h (String.ext (hd.trans rfl))

/-- C8: the persistence path is deterministic: pageDataToOutPath depends
only on the page's slug and the output directory, mapping the empty slug
to join(outDir, index.html) and any other slug to
join(outDir, slug, index.html); and filePathToSlug maps index.md and
dir/index.md under the source directory to the directory root slug. -/
theorem outPath_deterministic_and_index_slug (p q : PageData)
    (outDir srcDir d : String) (hsrc : srcDir ≠ "") :
    (p.slug = q.slug → pageDataToOutPath p outDir = pageDataToOutPath q outDir) ∧
    (p.slug = "" → pageDataToOutPath p outDir = pathJoin outDir "index.html") ∧
    (p.slug ≠ "" →
      pageDataToOutPath p outDir = pathJoin (pathJoin outDir p.slug) "index.html") ∧
    filePathToSlug (srcDir ++ "/index.md") srcDir = "" ∧
    filePathToSlug (srcDir ++ "/" ++ d ++ "/index.md") srcDir = d := by
  have hne : srcDir.data ≠ [] := data_ne_nil_of_ne_empty srcDir hsrc
  refine ⟨?_, ?_, ?_, ?_, ?_⟩
  · intro h
    simp [pageDataToOutPath, h]
  · intro h
    simp [pageDataToOutPath, h]
  · intro h
    simp [pageDataToOutPath, h]
  · have hdata : (srcDir ++ "/index.md").data = srcDir.data ++ "/index.md".data :=
      String.data_append srcDir "/index.md"
    simp only [filePathToSlug]
    rw [hdata, replaceFirstChars_append_self srcDir.data "/index.md".data hne]
    decide
  · have hdata : (srcDir ++ "/" ++ d ++ "/index.md").data =
        srcDir.data ++ ('/' :: (d.data ++ "/index.md".data)) := by
      rw [String.data_append, String.data_append, String.data_append]
      rw [List.append_assoc, List.append_assoc]
      rfl
    have h9 : ("/index.md".data).length = 9 := by decide
    have h6 : ("/index".data).length = 6 := by decide
    have h3 : (".md".data).length = 3 := by decide
    simp only [filePathToSlug]
    rw [hdata, replaceFirstChars_append_self srcDir.data _ hne]
    have hstrip : stripLeadingSlashChars ('/' :: (d.data ++ "/index.md".data)) =
        d.data ++ "/index.md".data := rfl
    rw [hstrip]
    have hsuf : (".md".data.isSuffixOf (d.data ++ "/index.md".data)) = true := by
      rw [List.isSuffixOf_iff_suffix]
      exact List.IsSuffix.trans ⟨"/index".data, by decide⟩ (List.suffix_append _ _)
    have hs3 : stripSuffixChars (d.data ++ "/index.md".data) ".md".data =
        d.data ++ "/index".data := by
      unfold stripSuffixChars
      rw [if_pos hsuf, List.length_append, h9, h3]
      rw [List.take_append_eq_append_take]
      rw [List.take_of_length_le (by omega)]
      rw [show d.data.length + 9 - 3 - d.data.length = 6 from by omega]
      rw [show ("/index.md".data).take 6 = "/index".data from by decide]
    rw [hs3]
    have hne2 : ¬(d.data ++ "/index".data = "index".data) := by
      intro h
      have hlen := congrArg List.length h
      rw [List.length_append, h6] at hlen
      rw [show ("index".data).length = 5 from by decide] at hlen
      omega
    rw [if_neg hne2]
    have hsuf2 : ("/index".data.isSuffixOf (d.data ++ "/index".data)) = true := by
      rw [List.isSuffixOf_iff_suffix]
      exact List.suffix_append _ _
    rw [if_pos hsuf2]
    rw [List.length_append, h6]
    rw [show d.data.length + 6 - 6 = d.data.length from by omega]
    rw [List.take_left]
    exact data_asString d

/-- Witness for C8 at concrete inputs: the file /src/guide/index.md maps
to the slug guide, and the empty slug maps to out/index.html. -/
theorem outPath_deterministic_and_index_slug_witness :
    filePathToSlug ("/src" ++ "/" ++ "guide" ++ "/index.md") "/src" = "guide" ∧
    pageDataToOutPath ⟨"", "Home"⟩ "out" = pathJoin "out" "index.html" :=
  ⟨(outPath_deterministic_and_index_slug ⟨"", "Home"⟩ ⟨"", "Home"⟩ "out" "/src"
      "guide" (by decide)).2.2.2.2,
   (outPath_deterministic_and_index_slug ⟨"", "Home"⟩ ⟨"", "Home"⟩ "out" "/src"
      "guide" (by decide)).2.1 rfl⟩

/-! ## Claim C6 -/

theorem taskNode_run_visible_from_current_gen (evs : List (TaskEvent α)) :
    ∀ t : TaskNode α,
      (TaskNode.run t evs).visible ≠ TaskState.pending →
      (∃ r : Settled α,
        TaskEvent.complete (TaskNode.run t evs).generation r ∈ evs ∧
        (TaskNode.run t evs).visible = r.toState) ∨
      TaskNode.run t evs = t := by
  induction evs with
  | nil => intro t _; exact Or.inr rfl
  | cons e rest ih =>
    intro t hvis
    have hrun : TaskNode.run t (e :: rest) = TaskNode.run (t.applyEvent e) rest := rfl
    rw [hrun] at hvis ⊢
    rcases ih (t.applyEvent e) hvis with h | h
    · obtain ⟨r, hmem, hval⟩ := h
      exact Or.inl ⟨r, List.mem_cons_of_mem e hmem, hval⟩
    · rw [h] at hvis ⊢
      cases e with
      | start => exact absurd rfl hvis
      | complete gen r =>
        by_cases hg : gen = t.generation
        · have happ : t.applyEvent (TaskEvent.complete gen r) =
              ⟨t.generation, r.toState⟩ := by
            simp only [TaskNode.applyEvent]
            rw [if_pos hg]
          rw [happ]
          exact Or.inl ⟨r, by rw [hg]; exact List.mem_cons_self _ _, rfl⟩
        · have happ : t.applyEvent (TaskEvent.complete gen r) = t := by
            simp only [TaskNode.applyEvent]
            rw [if_neg hg]
          rw [happ]
          exact Or.inr rfl

/-- C6: a stale generation's completion never mutates the Task's visible
state — a complete event whose generation is not the current one leaves
the node untouched — and over any event sequence from a fresh Task, a
visible Ok/Err state always belongs to the latest generation: it is the
result of a completion tagged with the final generation counter. -/
theorem task_stale_generation_suppressed (t : TaskNode α) (gen : Nat)
    (r : Settled α) (evs : List (TaskEvent α))
    (hstale : gen ≠ t.generation)
    (hsettled : (TaskNode.run TaskNode.initial evs).visible ≠ TaskState.pending) :
    t.applyEvent (TaskEvent.complete gen r) = t ∧
    ∃ rfin : Settled α,
      TaskEvent.complete (TaskNode.run TaskNode.initial evs).generation rfin ∈ evs ∧
      (TaskNode.run TaskNode.initial evs).visible = rfin.toState := by
  constructor
  · simp only [TaskNode.applyEvent]
    rw [if_neg hstale]
  · rcases taskNode_run_visible_from_current_gen evs TaskNode.initial hsettled with
      h | h
    · exact h
    · rw [h] at hsettled
      exact absurd rfl hsettled

/-- Witness for C6 at a concrete input: generation 1's late completion
(value 10) after generation 2 has started is suppressed, and the final
visible state is generation 2's value 20. -/
theorem task_stale_generation_suppressed_witness :
    TaskNode.run (TaskNode.initial (α := Nat))
      [TaskEvent.start, TaskEvent.start,
       TaskEvent.complete 2 (Settled.ok 20), TaskEvent.complete 1 (Settled.ok 10)] =
      ⟨2, TaskState.ok 20⟩ ∧
    ∃ rfin : Settled Nat,
      TaskEvent.complete
        (TaskNode.run TaskNode.initial
          [TaskEvent.start, TaskEvent.start,
           TaskEvent.complete 2 (Settled.ok 20),
           TaskEvent.complete 1 (Settled.ok 10)]).generation rfin ∈
        [TaskEvent.start, TaskEvent.start,
         TaskEvent.complete 2 (Settled.ok 20), TaskEvent.complete 1 (Settled.ok 10)] ∧
      (TaskNode.run TaskNode.initial
        [TaskEvent.start, TaskEvent.start,
         TaskEvent.complete 2 (Settled.ok 20),
         TaskEvent.complete 1 (Settled.ok 10)]).visible = rfin.toState :=
  ⟨by decide,
   (task_stale_generation_suppressed ⟨2, TaskState.ok 20⟩ 1 (Settled.ok 10)
      [TaskEvent.start, TaskEvent.start,
       TaskEvent.complete 2 (Settled.ok 20), TaskEvent.complete 1 (Settled.ok 10)]
      (by decide) (by decide)).2⟩

/-! ## Lemmas on the write effect -/

theorem writeEffectRun_ok_complete (outDir : String) (hasNotify : Bool)
    (st : PipelineState) (pages : List PageData) (tasks : PipelineTasks)
    (hall : tasks.allOk = true) :
    writeEffectRun outDir hasNotify st pages tasks true =
      (effectReads pages ++
        (pages ++ tasks.typedoc.okValue.getD []).map
          (fun p => RunEvent.writePage (pageDataToOutPath p outDir)) ++
        (if st.buildResolveAlive then [RunEvent.resolveBuild] else []) ++
        (if st.initialBuildDone && hasNotify then [RunEvent.notifyPagesWritten]
         else []),
       ⟨true, false⟩) := by
  simp only [writeEffectRun, hall, if_true]

theorem writeEffectRun_ok_incomplete (outDir : String) (hasNotify : Bool)
    (st : PipelineState) (pages : List PageData) (tasks : PipelineTasks)
    (hall : tasks.allOk = true) :
    writeEffectRun outDir hasNotify st pages tasks false =
      (effectReads pages ++
        (pages ++ tasks.typedoc.okValue.getD []).map
          (fun p => RunEvent.writePage (pageDataToOutPath p outDir)),
       st) := by
  simp only [writeEffectRun, hall, if_true, Bool.false_eq_true, if_false]

theorem writeEffectRun_err (outDir : String) (hasNotify : Bool)
    (st : PipelineState) (pages : List PageData) (tasks : PipelineTasks)
    (wc : Bool) (e : String)
    (hall : tasks.allOk = false) (he : tasks.firstError = some e) :
    writeEffectRun outDir hasNotify st pages tasks wc =
      (effectReads pages ++ [RunEvent.logError e] ++
        (if st.buildResolveAlive then [RunEvent.resolveBuild] else []),
       ⟨st.initialBuildDone, false⟩) := by
  simp only [writeEffectRun, hall, Bool.false_eq_true, if_false, he]

theorem writeEffectRun_nil (outDir : String) (hasNotify : Bool)
    (st : PipelineState) (pages : List PageData) (tasks : PipelineTasks)
    (wc : Bool)
    (hall : tasks.allOk = false) (he : tasks.firstError = none) :
    writeEffectRun outDir hasNotify st pages tasks wc =
      (effectReads pages, st) := by
  simp only [writeEffectRun, hall, Bool.false_eq_true, if_false, he]

theorem isOk_iff_eq_ok (t : TaskState α) :
    t.isOk = true ↔ ∃ v, t = TaskState.ok v := by
  cases t <;> simp [TaskState.isOk]

theorem allOk_firstError_none (t : PipelineTasks) (h : t.allOk = true) :
    t.firstError = none := by
  obtain ⟨l, b, a, ty⟩ := t
  simp only [PipelineTasks.allOk, Bool.and_eq_true] at h
  obtain ⟨⟨⟨hl, hb⟩, ha⟩, hty⟩ := h
  obtain ⟨vl, rfl⟩ := (isOk_iff_eq_ok l).mp hl
  obtain ⟨vb, rfl⟩ := (isOk_iff_eq_ok b).mp hb
  obtain ⟨va, rfl⟩ := (isOk_iff_eq_ok a).mp ha
  obtain ⟨vty, rfl⟩ := (isOk_iff_eq_ok ty).mp hty
  rfl

theorem allOk_anyPending_false (t : PipelineTasks) (h : t.allOk = true) :
    t.anyPending = false := by
  obtain ⟨l, b, a, ty⟩ := t
  simp only [PipelineTasks.allOk, Bool.and_eq_true] at h
  obtain ⟨⟨⟨hl, hb⟩, ha⟩, hty⟩ := h
  obtain ⟨vl, rfl⟩ := (isOk_iff_eq_ok l).mp hl
  obtain ⟨vb, rfl⟩ := (isOk_iff_eq_ok b).mp hb
  obtain ⟨va, rfl⟩ := (isOk_iff_eq_ok a).mp ha
  obtain ⟨vty, rfl⟩ := (isOk_iff_eq_ok ty).mp hty
  rfl

theorem resolveBuild_not_mem_effectReads (pages : List PageData) :
    RunEvent.resolveBuild ∉ effectReads pages := by
  simp [effectReads]

theorem notify_not_mem_effectReads (pages : List PageData) :
    RunEvent.notifyPagesWritten ∉ effectReads pages := by
  simp [effectReads]

theorem isWrite_false_of_mem_effectReads (pages : List PageData) (ev : RunEvent)
    (h : ev ∈ effectReads pages) : ev.isWrite = false := by
  simp only [effectReads, List.mem_append, List.mem_map, List.mem_cons,
    List.mem_singleton, List.not_mem_nil, or_false] at h
  rcases h with ⟨p, _, rfl⟩ | rfl | rfl | rfl | rfl
  all_goals rfl

theorem notify_not_mem_writes (outDir : String) (l : List PageData) :
    RunEvent.notifyPagesWritten ∉
      l.map (fun p => RunEvent.writePage (pageDataToOutPath p outDir)) := by
  simp

theorem resolveBuild_not_mem_writes (outDir : String) (l : List PageData) :
    RunEvent.resolveBuild ∉
      l.map (fun p => RunEvent.writePage (pageDataToOutPath p outDir)) := by
  simp

theorem run_state_initialBuildDone (outDir : String) (hasNotify : Bool)
    (st : PipelineState) (pages : List PageData) (tasks : PipelineTasks)
    (wc : Bool) :
    (writeEffectRun outDir hasNotify st pages tasks wc).2.initialBuildDone =
      (st.initialBuildDone || (tasks.allOk && wc)) := by
  by_cases hall : tasks.allOk = true
  · cases wc with
    | true => rw [writeEffectRun_ok_complete outDir hasNotify st pages tasks hall]
              simp [hall]
    | false => rw [writeEffectRun_ok_incomplete outDir hasNotify st pages tasks hall]
               simp
  · rw [Bool.not_eq_true] at hall
    cases he : tasks.firstError with
    | some e => rw [writeEffectRun_err outDir hasNotify st pages tasks wc e hall he]
                simp [hall]
    | none => rw [writeEffectRun_nil outDir hasNotify st pages tasks wc hall he]
              simp [hall]

theorem notify_mem_run_conditions (outDir : String) (hasNotify : Bool)
    (st : PipelineState) (pages : List PageData) (tasks : PipelineTasks)
    (wc : Bool)
    (h : RunEvent.notifyPagesWritten ∈
      (writeEffectRun outDir hasNotify st pages tasks wc).1) :
    st.initialBuildDone = true ∧ hasNotify = true ∧
      tasks.allOk = true ∧ wc = true := by
  by_cases hall : tasks.allOk = true
  · cases wc with
    | true =>
      rw [writeEffectRun_ok_complete outDir hasNotify st pages tasks hall] at h
      simp only [List.mem_append] at h
      rcases h with ((hr | hw) | hres) | hn
      · exact absurd hr (notify_not_mem_effectReads pages)
      · exact absurd hw (notify_not_mem_writes outDir _)
      · rcases hra : st.buildResolveAlive with _ | _ <;> rw [hra] at hres <;>
          simp at hres
      · rcases hnc : (st.initialBuildDone && hasNotify) with _ | _
        · rw [hnc] at hn
          simp at hn
        · rw [Bool.and_eq_true] at hnc
          exact ⟨hnc.1, hnc.2, hall, rfl⟩
    | false =>
      rw [writeEffectRun_ok_incomplete outDir hasNotify st pages tasks hall] at h
      simp only [List.mem_append] at h
      rcases h with hr | hw
      · exact absurd hr (notify_not_mem_effectReads pages)
      · exact absurd hw (notify_not_mem_writes outDir _)
  · rw [Bool.not_eq_true] at hall
    cases he : tasks.firstError with
    | some e =>
      rw [writeEffectRun_err outDir hasNotify st pages tasks wc e hall he] at h
      simp only [List.mem_append] at h
      rcases h with (hr | hl) | hres
      · exact absurd hr (notify_not_mem_effectReads pages)
      · simp at hl
      · rcases hra : st.buildResolveAlive with _ | _ <;> rw [hra] at hres <;>
          simp at hres
    | none =>
      rw [writeEffectRun_nil outDir hasNotify st pages tasks wc hall he] at h
      exact absurd h (notify_not_mem_effectReads pages)

theorem notify_is_last_event (outDir : String) (hasNotify : Bool)
    (st : PipelineState) (pages : List PageData) (tasks : PipelineTasks)
    (wc : Bool)
    (h : RunEvent.notifyPagesWritten ∈
      (writeEffectRun outDir hasNotify st pages tasks wc).1) :
    ∃ pre, (writeEffectRun outDir hasNotify st pages tasks wc).1 =
      pre ++ [RunEvent.notifyPagesWritten] := by
  obtain ⟨hdone, hnotify, hall, hwc⟩ :=
    notify_mem_run_conditions outDir hasNotify st pages tasks wc h
  subst hwc
  rw [writeEffectRun_ok_complete outDir hasNotify st pages tasks hall]
  rw [show (st.initialBuildDone && hasNotify) = true from by
    rw [hdone, hnotify]; rfl]
  exact ⟨_, by rw [if_pos rfl]⟩

/-! ## Claim C5 -/

/-- C5: on every execution of the terminal write effect — whatever the
four Task states, including the first run when all Tasks are Pending —
the run's events begin with a read of every pageDataCollection item
signal, in collection order, followed by the four Task reads match
performs when dispatching, before any branch-specific work: the
collection is read unconditionally before match dispatches, so it is
tracked as a dependency of that run regardless of the branch taken. -/
theorem writeEffect_reads_pages_before_match (outDir : String) (hasNotify : Bool)
    (st : PipelineState) (pages : List PageData) (tasks : PipelineTasks)
    (wc : Bool) :
    ∃ rest, (writeEffectRun outDir hasNotify st pages tasks wc).1 =
      pages.map (fun p => RunEvent.readPageItem p.slug) ++
      ([RunEvent.readTask "layout", RunEvent.readTask "bundle",
        RunEvent.readTask "asset", RunEvent.readTask "typedoc"] ++ rest) := by
  have hsplit : ∀ tail, effectReads pages ++ tail =
      pages.map (fun p => RunEvent.readPageItem p.slug) ++
      ([RunEvent.readTask "layout", RunEvent.readTask "bundle",
        RunEvent.readTask "asset", RunEvent.readTask "typedoc"] ++ tail) := by
    intro tail
    rw [effectReads, List.append_assoc]
  by_cases hall : tasks.allOk = true
  · cases wc with
    | true =>
      rw [writeEffectRun_ok_complete outDir hasNotify st pages tasks hall]
      exact ⟨_, by rw [List.append_assoc, List.append_assoc, hsplit]⟩
    | false =>
      rw [writeEffectRun_ok_incomplete outDir hasNotify st pages tasks hall]
      exact ⟨_, hsplit _⟩
  · rw [Bool.not_eq_true] at hall
    cases he : tasks.firstError with
    | some e =>
      rw [writeEffectRun_err outDir hasNotify st pages tasks wc e hall he]
      exact ⟨_, by rw [List.append_assoc, hsplit]⟩
    | none =>
      rw [writeEffectRun_nil outDir hasNotify st pages tasks wc hall he]
      exact ⟨_, by rw [← List.append_nil (effectReads pages), hsplit]⟩

/-! ## Claim C1 -/

/-- C1 counterexample: with one markdown page present (its data settled
and available), layoutTask, bundleTask and assetTask Ok, and typedocTask
settled Err, the run performs no page write at all: the Ok page is not
rendered or written, contradicting the claim that an Err in another task
of the same match call does not abort delivery. -/
theorem errTask_blocks_ok_page_counterexample :
    ((writeEffectRun "out" false ⟨false, true⟩ [⟨"guide", "Guide"⟩]
        ⟨TaskState.ok "L", TaskState.ok ⟨"", "", "", ""⟩, TaskState.ok true,
         TaskState.err "typedoc failed"⟩ true).1.filter RunEvent.isWrite = []) ∧
    RunEvent.logError "typedoc failed" ∈
      (writeEffectRun "out" false ⟨false, true⟩ [⟨"guide", "Guide"⟩]
        ⟨TaskState.ok "L", TaskState.ok ⟨"", "", "", ""⟩, TaskState.ok true,
         TaskState.err "typedoc failed"⟩ true).1 := by decide

/-- C1 amended: page delivery is all-or-nothing per run: when all four
tasks of the match call are Ok, every page (markdown and typedoc API) is
written to its output path; but when any task has settled Err the run
takes the err branch, logs the first error, and performs no page write —
one task's Err aborts that run's delivery of every page's result. -/
theorem err_run_writes_nothing_ok_run_writes_all (outDir : String)
    (hasNotify : Bool) (st : PipelineState) (pages : List PageData)
    (tasks : PipelineTasks) (wc : Bool) :
    (tasks.allOk = true → ∀ p ∈ pages ++ tasks.typedoc.okValue.getD [],
      RunEvent.writePage (pageDataToOutPath p outDir) ∈
        (writeEffectRun outDir hasNotify st pages tasks wc).1) ∧
    (∀ e, tasks.firstError = some e →
      (∀ ev ∈ (writeEffectRun outDir hasNotify st pages tasks wc).1,
        ev.isWrite = false) ∧
      RunEvent.logError e ∈ (writeEffectRun outDir hasNotify st pages tasks wc).1) := by
  constructor
  · intro hall p hp
    have hmem : RunEvent.writePage (pageDataToOutPath p outDir) ∈
        (pages ++ tasks.typedoc.okValue.getD []).map
          (fun q => RunEvent.writePage (pageDataToOutPath q outDir)) :=
      List.mem_map.mpr ⟨p, hp, rfl⟩
    cases wc with
    | true =>
      rw [writeEffectRun_ok_complete outDir hasNotify st pages tasks hall]
      simp only [List.mem_append]
      exact Or.inl (Or.inl (Or.inr hmem))
    | false =>
      rw [writeEffectRun_ok_incomplete outDir hasNotify st pages tasks hall]
      simp only [List.mem_append]
      exact Or.inr hmem
  · intro e he
    have hall : tasks.allOk = false := by
      rcases hA : tasks.allOk with _ | _
      · rfl
      · rw [allOk_firstError_none tasks hA] at he
        exact absurd he (by simp)
    rw [writeEffectRun_err outDir hasNotify st pages tasks wc e hall he]
    constructor
    · intro ev hev
      simp only [List.mem_append] at hev
      rcases hev with (hr | hl) | hres
      · exact isWrite_false_of_mem_effectReads pages ev hr
      · rw [List.mem_singleton] at hl
        rw [hl]
        rfl
      · rcases hra : st.buildResolveAlive with _ | _ <;> rw [hra] at hres
        · simp at hres
        · rw [if_pos rfl, List.mem_singleton] at hres
          rw [hres]
          rfl
    · simp

/-- Witness for the amended C1: on an all-Ok run the single page is
written to out/guide/index.html, and on the typedoc-Err run of the
counterexample every event is a non-write. -/
theorem err_run_writes_nothing_ok_run_writes_all_witness :
    RunEvent.writePage (pageDataToOutPath ⟨"guide", "Guide"⟩ "out") ∈
      (writeEffectRun "out" false ⟨false, true⟩ [⟨"guide", "Guide"⟩]
        ⟨TaskState.ok "L", TaskState.ok ⟨"", "", "", ""⟩, TaskState.ok true,
         TaskState.ok []⟩ true).1 :=
  (err_run_writes_nothing_ok_run_writes_all "out" false ⟨false, true⟩
    [⟨"guide", "Guide"⟩]
    ⟨TaskState.ok "L", TaskState.ok ⟨"", "", "", ""⟩, TaskState.ok true,
     TaskState.ok []⟩ true).1 rfl ⟨"guide", "Guide"⟩ (by decide)

/-! ## Claim C3 -/

/-- C3 counterexample: when layoutTask settles Err while bundleTask,
assetTask and typedocTask are all still Pending, the run takes the err
branch and resolves the build promise: build() resolves while three of
the pipeline's Tasks are still Pending, contradicting the claim. -/
theorem build_resolves_while_pending_counterexample :
    RunEvent.resolveBuild ∈
      (writeEffectRun "out" false ⟨false, true⟩ []
        ⟨TaskState.err "layout failed", TaskState.pending, TaskState.pending,
         TaskState.pending⟩ true).1 ∧
    (⟨TaskState.err "layout failed", TaskState.pending, TaskState.pending,
      TaskState.pending⟩ : PipelineTasks).anyPending = true := by decide

/-- C3 amended: build() resolves exactly on the first run whose match
dispatch is not nil: on an all-Ok run it resolves only after every page
write has completed, and then no Task is Pending; but on a run where some
Task has settled Err it resolves immediately, even if other Tasks are
still Pending; on a nil run, or once the promise is already resolved, no
resolution happens. -/
theorem build_resolution_per_branch (outDir : String) (hasNotify : Bool)
    (st : PipelineState) (pages : List PageData) (tasks : PipelineTasks)
    (wc : Bool) :
    (tasks.allOk = true → wc = true → st.buildResolveAlive = true →
      RunEvent.resolveBuild ∈
        (writeEffectRun outDir hasNotify st pages tasks wc).1 ∧
      tasks.anyPending = false) ∧
    (tasks.allOk = true → wc = false →
      RunEvent.resolveBuild ∉
        (writeEffectRun outDir hasNotify st pages tasks wc).1) ∧
    (∀ e, tasks.firstError = some e → st.buildResolveAlive = true →
      RunEvent.resolveBuild ∈
        (writeEffectRun outDir hasNotify st pages tasks wc).1) ∧
    (tasks.allOk = false → tasks.firstError = none →
      RunEvent.resolveBuild ∉
        (writeEffectRun outDir hasNotify st pages tasks wc).1) := by
  refine ⟨?_, ?_, ?_, ?_⟩
  · intro hall hwc halive
    subst hwc
    rw [writeEffectRun_ok_complete outDir hasNotify st pages tasks hall]
    refine ⟨?_, allOk_anyPending_false tasks hall⟩
    simp only [List.mem_append]
    exact Or.inl (Or.inr (by rw [halive, if_pos rfl]; exact List.mem_singleton.mpr rfl))
  · intro hall hwc
    subst hwc
    rw [writeEffectRun_ok_incomplete outDir hasNotify st pages tasks hall]
    intro h
    simp only [List.mem_append] at h
    rcases h with hr | hw
    · exact absurd hr (resolveBuild_not_mem_effectReads pages)
    · exact absurd hw (resolveBuild_not_mem_writes outDir _)
  · intro e he halive
    have hall : tasks.allOk = false := by
      rcases hA : tasks.allOk with _ | _
      · rfl
      · rw [allOk_firstError_none tasks hA] at he
        exact absurd he (by simp)
    rw [writeEffectRun_err outDir hasNotify st pages tasks wc e hall he]
    simp only [List.mem_append]
    exact Or.inr (by rw [halive, if_pos rfl]; exact List.mem_singleton.mpr rfl)
  · intro hall he
    rw [writeEffectRun_nil outDir hasNotify st pages tasks wc hall he]
    exact resolveBuild_not_mem_effectReads pages

/-- Witness for the amended C3: on the err run of the counterexample the
build promise is resolved. -/
theorem build_resolution_per_branch_witness :
    RunEvent.resolveBuild ∈
      (writeEffectRun "out" false ⟨false, true⟩ []
        ⟨TaskState.err "layout failed", TaskState.pending, TaskState.pending,
         TaskState.pending⟩ true).1 :=
  (build_resolution_per_branch "out" false ⟨false, true⟩ []
    ⟨TaskState.err "layout failed", TaskState.pending, TaskState.pending,
     TaskState.pending⟩ true).2.2.1 "layout failed" rfl rfl

/-! ## Claim C7 -/

theorem notify_requires_prior_completed (outDir : String) (hasNotify : Bool)
    (rs : List RunInput) :
    ∀ st : PipelineState, st.initialBuildDone = false → ∀ i : Nat,
      RunEvent.notifyPagesWritten ∈ (runSeq outDir hasNotify st rs).getD i [] →
      ∃ j, j < i ∧ (rs.getD j default).tasks.allOk = true ∧
        (rs.getD j default).writesComplete = true := by
  induction rs with
  | nil =>
    intro st _ i h
    simp [runSeq, List.getD] at h
  | cons r rest ih =>
    intro st hst i h
    have hseq : runSeq outDir hasNotify st (r :: rest) =
        (writeEffectRun outDir hasNotify st r.pages r.tasks r.writesComplete).1 ::
        runSeq outDir hasNotify
          (writeEffectRun outDir hasNotify st r.pages r.tasks
            r.writesComplete).2 rest := rfl
    cases i with
    | zero =>
      rw [hseq, List.getD_cons_zero] at h
      have hdone := (notify_mem_run_conditions outDir hasNotify st r.pages
        r.tasks r.writesComplete h).1
      rw [hst] at hdone
      exact absurd hdone (by simp)
    | succ i =>
      rw [hseq, List.getD_cons_succ] at h
      by_cases hA : r.tasks.allOk = true ∧ r.writesComplete = true
      · refine ⟨0, Nat.succ_pos i, ?_, ?_⟩
        · rw [List.getD_cons_zero]
          exact hA.1
        · rw [List.getD_cons_zero]
          exact hA.2
      · have hst2 : (writeEffectRun outDir hasNotify st r.pages r.tasks
            r.writesComplete).2.initialBuildDone = false := by
          rw [run_state_initialBuildDone, hst]
          simp only [Bool.false_or]
          rcases h1 : r.tasks.allOk with _ | _
          · rfl
          · rcases h2 : r.writesComplete with _ | _
            · rfl
            · exact absurd ⟨h1, h2⟩ hA
        obtain ⟨j, hj, hok, hwc⟩ := ih _ hst2 i h
        refine ⟨j + 1, Nat.succ_lt_succ hj, ?_, ?_⟩
        · rw [List.getD_cons_succ]
          exact hok
        · rw [List.getD_cons_succ]
          exact hwc

/-- C7: onPagesWritten is never invoked during the initial build: over
any sequence of write-effect runs from the pipeline's initial closure
state (initialBuildDone false, build promise pending), a
notifyPagesWritten event in run i requires a strictly earlier run j on
which all four Tasks were Ok and every page write completed; and on any
single run in which the notification fires, it is the run's final event,
coming after every one of that run's page writes. -/
theorem onPagesWritten_after_initial_build (outDir : String) (hasNotify : Bool)
    (rs : List RunInput) (i : Nat) (st : PipelineState) (pages : List PageData)
    (tasks : PipelineTasks) (wc : Bool) :
    (RunEvent.notifyPagesWritten ∈
        (runSeq outDir hasNotify ⟨false, true⟩ rs).getD i [] →
      ∃ j, j < i ∧ (rs.getD j default).tasks.allOk = true ∧
        (rs.getD j default).writesComplete = true) ∧
    (RunEvent.notifyPagesWritten ∈
        (writeEffectRun outDir hasNotify st pages tasks wc).1 →
      ∃ pre, (writeEffectRun outDir hasNotify st pages tasks wc).1 =
        pre ++ [RunEvent.notifyPagesWritten]) :=
  ⟨fun h => notify_requires_prior_completed outDir hasNotify rs ⟨false, true⟩
    rfl i h,
   fun h => notify_is_last_event outDir hasNotify st pages tasks wc h⟩

/-- Witness for C7 at a concrete input: two consecutive completed all-Ok
runs; the notification appears in the second run (index 1), which is
preceded by the completed first run (index 0), and on that second run the
notification is the final event. -/
theorem onPagesWritten_after_initial_build_witness :
    (∃ j, j < 1 ∧
      (([⟨[⟨"a", "A"⟩], ⟨TaskState.ok "L", TaskState.ok ⟨"", "", "", ""⟩,
          TaskState.ok true, TaskState.ok []⟩, true⟩,
         ⟨[⟨"a", "A"⟩], ⟨TaskState.ok "L", TaskState.ok ⟨"", "", "", ""⟩,
          TaskState.ok true, TaskState.ok []⟩, true⟩] : List RunInput).getD j
        default).tasks.allOk = true ∧
      (([⟨[⟨"a", "A"⟩], ⟨TaskState.ok "L", TaskState.ok ⟨"", "", "", ""⟩,
          TaskState.ok true, TaskState.ok []⟩, true⟩,
         ⟨[⟨"a", "A"⟩], ⟨TaskState.ok "L", TaskState.ok ⟨"", "", "", ""⟩,
          TaskState.ok true, TaskState.ok []⟩, true⟩] : List RunInput).getD j
        default).writesComplete = true) ∧
    (∃ pre, (writeEffectRun "out" true ⟨true, false⟩ [⟨"a", "A"⟩]
        ⟨TaskState.ok "L", TaskState.ok ⟨"", "", "", ""⟩, TaskState.ok true,
         TaskState.ok []⟩ true).1 =
      pre ++ [RunEvent.notifyPagesWritten]) :=
  ⟨(onPagesWritten_after_initial_build "out" true
      [⟨[⟨"a", "A"⟩], ⟨TaskState.ok "L", TaskState.ok ⟨"", "", "", ""⟩,
         TaskState.ok true, TaskState.ok []⟩, true⟩,
       ⟨[⟨"a", "A"⟩], ⟨TaskState.ok "L", TaskState.ok ⟨"", "", "", ""⟩,
         TaskState.ok true, TaskState.ok []⟩, true⟩] 1 ⟨true, false⟩
      [⟨"a", "A"⟩]
      ⟨TaskState.ok "L", TaskState.ok ⟨"", "", "", ""⟩, TaskState.ok true,
       TaskState.ok []⟩ true).1 (by decide),
   (onPagesWritten_after_initial_build "out" true
      [⟨[⟨"a", "A"⟩], ⟨TaskState.ok "L", TaskState.ok ⟨"", "", "", ""⟩,
         TaskState.ok true, TaskState.ok []⟩, true⟩,
       ⟨[⟨"a", "A"⟩], ⟨TaskState.ok "L", TaskState.ok ⟨"", "", "", ""⟩,
         TaskState.ok true, TaskState.ok []⟩, true⟩] 1 ⟨true, false⟩
      [⟨"a", "A"⟩]
      ⟨TaskState.ok "L", TaskState.ok ⟨"", "", "", ""⟩, TaskState.ok true,
       TaskState.ok []⟩ true).2 (by decide)⟩

end DocsServer
